import Mathlib

/-!
Verification of the WASI virtual-filesystem / WASM-runner core of the
notso-glb repository against its natural-language specification.

The Python source is shallowly embedded: guest linear memory is a
`List Nat` of byte values, Python byte-string slicing and indexing are
modelled with their exact clamping / negative-wrap semantics, the
loosely-typed per-fd dictionaries become a record of optional fields,
and Python exceptions become explicit error values threaded through a
result type.  Sources embedded here:

* src/notso_glb/wasm/wasi.py        (class WasiFilesystem)
* src/notso_glb/wasm/runtime.py     (class GltfpackWasm: _upload_argv, pack)
* src/notso_glb/wasm/runner.py      (_resolve_output_path, _build_args,
                                     _execute, run_gltfpack_wasm)
* src/notso_glb/wasm/ __init__.py   (module namespace, legacy
                                     run_gltfpack_wasm argument building)
* src/notso_glb/utils/gltfpack.py   (_select_backend, _resolve_output_path)
-/

namespace NotsoGlb

/-! ## Python sequence semantics

Python list / bytearray indexing and slicing used by the source:
`l[i]` wraps a negative index once (`i + len`) and raises IndexError
when still out of range; `l[a:b]` clamps both bounds into `[0, len]`
and never fails; `l[a:b] = r` replaces the clamped range by `r`
(which may change the length).  These are modelled exactly. -/

/-- Normalise a Python slice bound into `[0, n]` (negative bounds count
from the end, then both directions clamp). -/
def pySliceBound (n : Nat) (i : Int) : Nat :=
  (min (max (if i < 0 then i + n else i) 0) (n : Int)).toNat

/-- Python `l[a:b]` for byte sequences: clamped, total. -/
def pySlice (l : List Nat) (a b : Int) : List Nat :=
  let lo := pySliceBound l.length a
  let hi := pySliceBound l.length b
  (l.drop lo).take (hi - lo)

/-- Python slice assignment `l[a:b] = r`: replaces the clamped range by
`r`; when the clamped stop is before the clamped start the elements of
`r` are inserted at the start position. -/
def pySliceAssign (l : List Nat) (a b : Int) (r : List Nat) : List Nat :=
  let lo := pySliceBound l.length a
  let hi := max lo (pySliceBound l.length b)
  l.take lo ++ r ++ l.drop hi

/-- Normalise a Python single-index access: one negative wrap, then the
index must be in range (otherwise IndexError, modelled as `none`). -/
def pyIndex (n : Nat) (i : Int) : Option Nat :=
  let j := if i < 0 then i + n else i
  if 0 ≤ j ∧ j < n then some j.toNat else none

/-- Python `l[i] = v` on a fixed-size arena (the ctypes view of guest
memory): `none` models an IndexError. -/
def pySetIndex (l : List Nat) (i : Int) (v : Nat) : Option (List Nat) :=
  (pyIndex l.length i).map fun j => l.set j v

/-- Python exception classes that the embedded code can raise or catch. -/
inductive PyErr where
  | indexError
  | overflowError
  | keyError
  | unicodeDecodeError
  | osError
  | valueError
  | typeError
  | importError
  | wasmtimeTrap
  deriving DecidableEq, Repr

/-- Result of a fallible Python operation: a value or an exception,
in both cases together with the (possibly partially mutated) state. -/
inductive PyR (α : Type) (σ : Type) where
  | ok (a : α) (s : σ)
  | exn (e : PyErr) (s : σ)
  deriving DecidableEq, Repr

/-! ## Memory accessors (wasi.py, WasiFilesystem)

`_refresh_memory` re-acquires the live view of guest memory; in this
embedding the memory is carried directly as state, so the refresh is
the identity and is not modelled separately.  `_get_string` returns
the raw byte slice (the source additionally decodes it as UTF-8, an
operation that can only raise UnicodeDecodeError, never touch other
bytes); the bounds behaviour under scrutiny is byte-level. -/

/-- `WasiFilesystem._get_string` (byte level):
`bytes(self._memory_array[offset : offset + length])`. -/
def wasiGetString (mem : List Nat) (offset length : Int) : List Nat :=
  pySlice mem offset (offset + length)

/-- `WasiFilesystem._set_u8`: `self._memory_array[offset] = value & 0xFF`. -/
def wasiSetU8 (mem : List Nat) (offset value : Int) : PyR Unit (List Nat) :=
  match pySetIndex mem offset (value % 256).toNat with
  | some m => .ok () m
  | none => .exn .indexError mem

/-- Little-endian byte `k` of a nonnegative value, as produced by
`value.to_bytes(4, "little")`. -/
def leByte (v : Int) (k : Nat) : Nat :=
  v.toNat / 256 ^ k % 256

/-- `WasiFilesystem._set_u32`: `value.to_bytes(4, "little")` raises
OverflowError outside `[0, 2^32)`; the four bytes are then written one
by one, so an out-of-range offset raises IndexError after the earlier
bytes have already been stored. -/
def wasiSetU32 (mem : List Nat) (offset value : Int) : PyR Unit (List Nat) :=
  if value < 0 ∨ (2 : Int) ^ 32 ≤ value then .exn .overflowError mem
  else match pySetIndex mem offset (leByte value 0) with
    | none => .exn .indexError mem
    | some m0 =>
      match pySetIndex m0 (offset + 1) (leByte value 1) with
      | none => .exn .indexError m0
      | some m1 =>
        match pySetIndex m1 (offset + 2) (leByte value 2) with
        | none => .exn .indexError m1
        | some m2 =>
          match pySetIndex m2 (offset + 3) (leByte value 3) with
          | none => .exn .indexError m2
          | some m3 => .ok () m3

/-- `int.from_bytes(b, "little")` on a byte list. -/
def natFromLeBytes (b : List Nat) : Nat :=
  b.foldr (fun x acc => x + 256 * acc) 0

/-- `WasiFilesystem._get_u32`:
`int.from_bytes(bytes(self._memory_array[offset : offset + 4]), "little")`;
total, because a Python slice silently truncates. -/
def wasiGetU32 (mem : List Nat) (offset : Int) : Int :=
  natFromLeBytes (pySlice mem offset (offset + 4))

/-! ## File-descriptor table and per-invocation state

The source keeps each descriptor as a loosely-typed `dict`; its
optional keys become optional fields.  `close_data` is only ever the
flag value `True`, so key presence is a `Bool`. -/

/-- One entry of `WasiFilesystem._fds`. -/
structure FdInfo where
  typ : Option String := none
  mount : Option String := none
  path : Option String := none
  name : Option String := none
  position : Option Int := none
  size : Option Int := none
  data : Option (List Nat) := none
  close_data : Bool := false
  deriving DecidableEq, Repr

/-- Association-list lookup (Python `d[k]` / `k in d`). -/
def alookup {κ α : Type} [DecidableEq κ] : List (κ × α) → κ → Option α
  | [], _ => none
  | (k, v) :: rest, key => if k = key then some v else alookup rest key

/-- Association-list store (Python `d[k] = v`). -/
def aset {κ α : Type} [DecidableEq κ] : List (κ × α) → κ → α → List (κ × α)
  | [], key, val => [(key, val)]
  | (k, v) :: rest, key, val =>
    if k = key then (key, val) :: rest else (k, v) :: aset rest key val

/-- Association-list removal (Python `del d[k]`). -/
def aerase {κ α : Type} [DecidableEq κ] : List (κ × α) → κ → List (κ × α)
  | [], _ => []
  | (k, v) :: rest, key =>
    if k = key then aerase rest key else (k, v) :: aerase rest key

/-- The per-invocation mutable state of `WasiFilesystem` (the guest
linear memory is included because every accessor reads it through the
refreshed view). -/
structure WasiState where
  output_buffer : List Nat := []
  fds : List (Int × FdInfo) := []
  fs_interface : Option (List (String × List Nat)) := none
  memory : List Nat := []
  deriving DecidableEq, Repr

/-- `WasiFilesystem._init_fds`: reset the log buffer and install the
fixed four-entry descriptor baseline. -/
def init_fds (st : WasiState) : WasiState :=
  { st with
    output_buffer := []
    fds :=
      [(1, { typ := some "output" }),
       (2, { typ := some "output" }),
       (3, { mount := some "/", path := some "/" }),
       (4, { mount := some "/gltfpack-$pwd", path := some "" })] }

/-! ## WASI status codes (wasm/constants.py) -/

def WASI_EBADF : Int := 8
def WASI_EFAULT : Int := 21
def WASI_EINVAL : Int := 28
def WASI_EIO_code : Int := 29
def WASI_ENOSYS : Int := 52

/-! ## WASI syscalls (wasi.py, WasiFilesystem) -/

/-- `WasiFilesystem.wasi_proc_exit`: the body is exactly `pass`, so the
call returns control to the guest normally.  A `some code` result would
model raising a distinguished guest-exit signal that unwinds into the
engine wrapper; the implementation produces no such signal. -/
def wasi_proc_exit (rval : Int) : Option Int :=
  none

/-- `WasiFilesystem.wasi_fd_close`.  Unknown fd: EBADF.  Otherwise, if
the entry is flush-on-close (`close_data` present) and a virtual
filesystem is attached, its `data[:size]` slice is copied into the
filesystem map under its recorded name; a KeyError from a missing
`data`/`size` key is swallowed, the fd is still deleted, and EIO is
returned. -/
def wasi_fd_close (st : WasiState) (fd : Int) : Int × WasiState :=
  match alookup st.fds fd with
  | none => (WASI_EBADF, st)
  | some info =>
    if info.close_data ∧ st.fs_interface.isSome then
      match info.data, info.size with
      | some d, some sz =>
        let name := info.name.getD ""
        let flushed := pySlice d 0 sz
        (0, { st with
              fs_interface := some (aset (st.fs_interface.getD []) name flushed)
              fds := aerase st.fds fd })
      | _, _ => (WASI_EIO_code, { st with fds := aerase st.fds fd })
    else (0, { st with fds := aerase st.fds fd })

/-- `WasiFilesystem.wasi_fd_seek32`.  The position is stored before the
result is written back to guest memory, so a failing `_set_u32` (for
example an OverflowError on a negative position) leaves the new
position behind and propagates the exception. -/
def wasi_fd_seek32 (st : WasiState) (fd offset whence newoffset : Int) :
    PyR Int WasiState :=
  match alookup st.fds fd with
  | none => .ok WASI_EBADF st
  | some info =>
    if whence = 0 ∨ whence = 1 ∨ whence = 2 then
      let new_pos : Int :=
        if whence = 0 then offset
        else if whence = 1 then info.position.getD 0 + offset
        else info.size.getD 0
      if new_pos > info.size.getD 0 then .ok WASI_EINVAL st
      else
        let st1 :=
          { st with fds := aset st.fds fd { info with position := some new_pos } }
        match wasiSetU32 st1.memory newoffset new_pos with
        | .ok _ m => .ok 0 { st1 with memory := m }
        | .exn e m => .exn e { st1 with memory := m }
    else .ok WASI_EINVAL st

/-- One iteration of the `wasi_fd_write` iovec loop at index `i`:
reads the iovec `(buf, buf_len)` from guest memory, takes the byte
slice, and either appends it to the shared log buffer (output fds) or
writes it into the file's backing buffer, growing the buffer first
when the write would exceed its capacity.  When the `data` key is
absent and no growth occurs, the bytes land in the temporary default
bytearray and are lost — exactly as in the source. -/
def fdWriteStep (mem : List Nat) (iovs : Int) (i : Nat)
    (info : FdInfo) (outbuf : List Nat) (total : Int) :
    FdInfo × List Nat × Int :=
  let buf := wasiGetU32 mem (iovs + 8 * i)
  let buf_len := wasiGetU32 mem (iovs + 8 * i + 4)
  let write_data := pySlice mem buf (buf + buf_len)
  if info.typ = some "output" then
    (info, outbuf ++ write_data, total + buf_len)
  else
    let pos := info.position.getD 0
    let data0 := info.data.getD []
    let grew := pos + buf_len > (data0.length : Int)
    let data1 :=
      if grew then
        data0 ++ List.replicate
          ((max (2 * (data0.length : Int)) (pos + buf_len)).toNat - data0.length) 0
      else data0
    let data2 := pySliceAssign data1 pos (pos + buf_len) write_data
    let stored : Option (List Nat) :=
      if grew then some data2
      else match info.data with
        | some _ => some data2
        | none => none
    ({ info with
        data := stored
        position := some (pos + buf_len)
        size := some (max (info.size.getD 0) (pos + buf_len)) },
     outbuf, total + buf_len)

/-- The `for i in range(iovs_len)` loop of `wasi_fd_write`: `k` many
iterations remain, `i` is the current index.  Guest memory is only read
during the loop, so it is a fixed parameter. -/
def fdWriteLoop (mem : List Nat) (iovs : Int) :
    Nat → Nat → FdInfo × List Nat × Int → FdInfo × List Nat × Int
  | 0, _, acc => acc
  | k + 1, i, (info, outbuf, total) =>
    fdWriteLoop mem iovs k (i + 1) (fdWriteStep mem iovs i info outbuf total)

/-- `WasiFilesystem.wasi_fd_write`.  After the loop the total is stored
at `nwritten` via `_set_u32`, which can itself raise. -/
def wasi_fd_write (st : WasiState) (fd iovs iovs_len nwritten : Int) :
    PyR Int WasiState :=
  match alookup st.fds fd with
  | none => .ok WASI_EBADF st
  | some info =>
    let res := fdWriteLoop st.memory iovs iovs_len.toNat 0 (info, st.output_buffer, 0)
    let st1 := { st with fds := aset st.fds fd res.1, output_buffer := res.2.1 }
    match wasiSetU32 st1.memory nwritten res.2.2 with
    | .ok _ m => .ok 0 { st1 with memory := m }
    | .exn e m => .exn e { st1 with memory := m }

/-! ## Engine wrapper (runtime.py, GltfpackWasm)

`malloc`, `free` and the exported `pack` entry point are guest code:
they may mutate the whole WASI state (the guest calls back into the
syscalls above) and may trap; a trap surfaces in Python as a wasmtime
exception.  They are therefore abstract parameters. -/

/-- The guest exports used by `GltfpackWasm`: `malloc(size) -> ptr`,
`pack(argc, argvPtr) -> i32`, `free(ptr)`; `none` models a trap. -/
structure Engine where
  malloc : Int → WasiState → Option (Int × WasiState)
  packFn : Int → Int → WasiState → Option (Int × WasiState)
  free : Int → WasiState → Option WasiState

/-- UTF-8 encoding of one code point, as `str.encode("utf-8")`. -/
def utf8EncodeChar (c : Nat) : List Nat :=
  if c < 0x80 then [c]
  else if c < 0x800 then [0xC0 + c / 64, 0x80 + c % 64]
  else if c < 0x10000 then [0xE0 + c / 4096, 0x80 + c / 64 % 64, 0x80 + c % 64]
  else [0xF0 + c / 262144, 0x80 + c / 4096 % 64, 0x80 + c / 64 % 64, 0x80 + c % 64]

/-- `arg.encode("utf-8")` as a byte list. -/
def strBytes (s : String) : List Nat :=
  s.data.foldr (fun ch acc => utf8EncodeChar ch.toNat ++ acc) []

/-- The inner `for j, b in enumerate(arg)` loop of `_upload_argv`:
byte-by-byte single-index stores into guest memory. -/
def writeBytesAt (mem : List Nat) (start : Int) : List Nat → PyR Unit (List Nat)
  | [] => .ok () mem
  | b :: rest =>
    match pySetIndex mem start b with
    | none => .exn .indexError mem
    | some m => writeBytesAt m (start + 1) rest

/-- The outer `for i, arg in enumerate(encoded_args)` loop of
`_upload_argv`: store the pointer, copy the bytes, store the NUL,
advance `argp`. -/
def uploadLoop (buf : Int) (mem : List Nat) (i : Nat) (argp : Int) :
    List (List Nat) → PyR Unit (List Nat)
  | [] => .ok () mem
  | a :: rest =>
    match wasiSetU32 mem (buf + 4 * i) argp with
    | .exn e m => .exn e m
    | .ok _ m1 =>
      match writeBytesAt m1 argp a with
      | .exn e m => .exn e m
      | .ok _ m2 =>
        match wasiSetU8 m2 (argp + a.length) 0 with
        | .exn e m => .exn e m
        | .ok _ m3 => uploadLoop buf m3 (i + 1) (argp + a.length + 1) rest

/-- `GltfpackWasm._upload_argv`: size the buffer (N 4-byte pointers,
then each NUL-terminated UTF-8 argument), `malloc` it, write the
pointer array and string bytes, return the base pointer. -/
def upload_argv (eng : Engine) (st : WasiState) (argv : List String) :
    PyR Int WasiState :=
  let encoded := argv.map strBytes
  let buf_size : Int :=
    4 * argv.length + encoded.foldr (fun a n => (a.length : Int) + 1 + n) 0
  match eng.malloc buf_size st with
  | none => .exn .wasmtimeTrap st
  | some (buf, st1) =>
    match uploadLoop buf st1.memory 0 (buf + 4 * argv.length) encoded with
    | .exn e m => .exn e { st1 with memory := m }
    | .ok _ m => .ok buf { st1 with memory := m }

/-- `GltfpackWasm.pack` (runtime.py).  `_initialize()` is the given
`eng`; the log is kept as raw bytes (the source decodes it UTF-8 with
replacement, a total operation).  Accessing `.get` on an absent
filesystem map would be an AttributeError on `None`. -/
def pack (eng : Engine) (st : WasiState) (input_data : List Nat)
    (input_name output_name : String) (args : Option (List String)) :
    PyR (Bool × List Nat × List Nat) WasiState :=
  let st1 := init_fds st
  let st2 := { st1 with fs_interface := some [(input_name, input_data)] }
  let argv := ["gltfpack", "-i", input_name, "-o", output_name] ++ args.getD []
  match upload_argv eng st2 argv with
  | .exn e s => .exn e s
  | .ok buf st3 =>
    match eng.packFn argv.length buf st3 with
    | none => .exn .wasmtimeTrap st3
    | some (result, st4) =>
      match eng.free buf st4 with
      | none => .exn .wasmtimeTrap st4
      | some st5 =>
        let log := st5.output_buffer
        if result ≠ 0 then .ok (false, [], log) st5
        else
          match st5.fs_interface with
          | none => .exn .typeError st5
          | some fsMap =>
            .ok (true, (alookup fsMap output_name).getD [], log) st5

/-! ## Runner (runner.py) and legacy package entry (wasm/ __init__.py) -/

/-- A filesystem path as `pathlib` sees it for the operations the
source uses: a parent plus a final component (`Path.name`, which never
contains a separator). -/
structure PyPath where
  parent : String
  name : String
  deriving DecidableEq, Repr

/-- Index of the last dot of a name (`name.rfind(".")` when a dot
exists). -/
def lastDotIdx : List Char → Option Nat
  | [] => none
  | c :: cs =>
    match lastDotIdx cs with
    | some i => some (i + 1)
    | none => if c = '.' then some 0 else none

/-- `PurePath.stem` and `PurePath.suffix` of a name: split at the last
dot when it is neither leading nor trailing, else the suffix is empty. -/
def pyStemSuffix (name : List Char) : List Char × List Char :=
  match lastDotIdx name with
  | some i =>
    if 0 < i ∧ i < name.length - 1 then (name.take i, name.drop i) else (name, [])
  | none => (name, [])

/-- The characters of the literal `"_packed"`. -/
def packedChars : List Char := ['_', 'p', 'a', 'c', 'k', 'e', 'd']

/-- `if stem.endswith("_packed"): stem = stem[:-7]`. -/
def dropPacked (stem : List Char) : List Char :=
  if 7 ≤ stem.length ∧ stem.drop (stem.length - 7) = packedChars then
    stem.take (stem.length - 7)
  else stem

/-- The default output name produced by `_resolve_output_path`:
`f"{stem}_packed{input_path.suffix}"` after stripping one trailing
`_packed` from the stem. -/
def resolveName (name : List Char) : List Char :=
  let sp := pyStemSuffix name
  dropPacked sp.1 ++ packedChars ++ sp.2

/-- `_resolve_output_path` (identical in runner.py and
utils/gltfpack.py): explicit output verbatim, else the default name in
the input's directory. -/
def resolve_output_path (input_path : PyPath) (output_path : Option PyPath) :
    PyPath :=
  match output_path with
  | some o => o
  | none => { parent := input_path.parent, name := String.mk (resolveName input_path.name.data) }

/-- `runner._build_args`: `-cc` for mesh compression, a validated
`-si <ratio>`; `fstr` renders a Python float as `str(...)` does. -/
def build_args (fstr : ℚ → String) (mesh_compress : Bool)
    (simplify_ratio : Option ℚ) : List String × Option String :=
  let args := if mesh_compress then ["-cc"] else []
  match simplify_ratio with
  | none => (args, none)
  | some r =>
    if ¬ (0 ≤ r ∧ r ≤ 1) then
      ([], some ("simplify_ratio must be [0.0, 1.0]: " ++ fstr r))
    else (args ++ ["-si", fstr r], none)

/-- The extra-args construction of the legacy package-level
`run_gltfpack_wasm` (wasm/ __init__.py lines 550-570): unlike the
runner, it appends `-tc` and a validated `-tq <q>`. -/
def legacy_build_args (fstr : ℚ → String) (istr : Int → String)
    (texture_compress mesh_compress : Bool) (simplify_ratio : Option ℚ)
    (texture_quality : Option Int) : Except String (List String) :=
  let args := if texture_compress then ["-tc"] else []
  let args := if mesh_compress then args ++ ["-cc"] else args
  match simplify_ratio with
  | some r =>
    if ¬ (0 ≤ r ∧ r ≤ 1) then
      .error ("simplify_ratio must be [0.0, 1.0]: " ++ fstr r)
    else
      let args := args ++ ["-si", fstr r]
      match texture_quality with
      | some q =>
        if ¬ (1 ≤ q ∧ q ≤ 10) then
          .error ("texture_quality must be [1, 10]: " ++ istr q)
        else .ok (args ++ ["-tq", istr q])
      | none => .ok args
  | none =>
    match texture_quality with
    | some q =>
      if ¬ (1 ≤ q ∧ q ≤ 10) then
        .error ("texture_quality must be [1, 10]: " ++ istr q)
      else .ok (args ++ ["-tq", istr q])
    | none => .ok args

/-- The names bound at runtime in the namespace of package
`notso_glb.wasm` (wasm/ __init__.py): the `__future__` import, the
runtime imports, the module constants, and its definitions.  No
`get_wasm_path` is among them (that function lives in the unimported
`download` submodule), so runner.py's `from . import get_wasm_path`
raises ImportError. -/
def wasmPackageNames : List String :=
  ["annotations", "ctypes", "Path", "TYPE_CHECKING",
   "WASI_EBADF", "WASI_EINVAL", "WASI_EIO_code", "WASI_ENOSYS",
   "_get_wasm_path", "is_available", "GltfpackWasm",
   "_gltfpack", "get_gltfpack", "run_gltfpack_wasm"]

/-- The `except` clauses of `runner._execute` (lines 74-79): the four
caught classes map to uniform failure triples (the source appends the
rendered exception to each message); any other exception is not
handled.  `none` means the exception propagates out of `_execute`. -/
def execHandler (output_path : PyPath) (e : PyErr) :
    Option (Bool × PyPath × String) :=
  match e with
  | .unicodeDecodeError => some (false, output_path, "Log decode error: ")
  | .osError => some (false, output_path, "File I/O error: ")
  | .valueError => some (false, output_path, "Argument error: ")
  | .typeError => some (false, output_path, "Argument error: ")
  | _ => none

/-- `runner._execute`: run the try suite (given abstractly as its
outcome — the suite reads the input, calls `pack`, writes the output)
and dispatch any exception through the handler clauses. -/
def execute (output_path : PyPath) (body : PyR (Bool × PyPath × String) Unit) :
    PyR (Bool × PyPath × String) Unit :=
  match body with
  | .ok v s => .ok v s
  | .exn e s =>
    match execHandler output_path e with
    | some v => .ok v s
    | none => .exn e s

/-! ## Backend selection (utils/gltfpack.py) -/

/-- Python truthiness of the `str | None` native-binary path. -/
def pyStrTruthy : Option String → Bool
  | none => false
  | some s => if s = "" then false else true

/-- ASCII lowering (`str.lower()` on the ASCII env-var values used
here). -/
def pyLower (s : String) : String :=
  String.mk (s.data.map Char.toLower)

/-- `os.environ.get(VAR, "").lower() in ("1", "true", "yes")`. -/
def parseEnvFlag (v : Option String) : Bool :=
  let s := pyLower (v.getD "")
  if s = "1" ∨ s = "true" ∨ s = "yes" then true else false

/-- `_select_backend` after reading the two environment flags: the
Python function returns `(use_wasm, error_result)`, exactly one of
which is set.  `wasm_available` snapshots `_wasm_available()` (pure
within one call). -/
def select_backend (input_path : PyPath) (prefer_wasm : Bool)
    (gltfpack : Option String) (force_native force_wasm wasm_available : Bool) :
    Option Bool × Option (Bool × PyPath × String) :=
  if force_native ∧ force_wasm then
    (none, some (false, input_path, "Cannot force both native and WASM backends"))
  else if force_native then
    if ¬ pyStrTruthy gltfpack then
      (none, some (false, input_path,
        "NOTSO_GLB_FORCE_GLTFPACK_NATIVE set but native gltfpack not found"))
    else (some false, none)
  else if force_wasm then
    if ¬ wasm_available then
      (none, some (false, input_path,
        "NOTSO_GLB_FORCE_GLTFPACK_WASM set but WASM runtime unavailable"))
    else (some true, none)
  else if prefer_wasm then
    if wasm_available then (some true, none)
    else if pyStrTruthy gltfpack then (some false, none)
    else
      (none, some (false, input_path,
        "prefer_wasm=True but WASM unavailable and no native fallback"))
  else if ¬ pyStrTruthy gltfpack then
    if wasm_available then (some true, none)
    else
      (none, some (false, input_path,
        "gltfpack not found and WASM fallback unavailable"))
  else (some false, none)

/-! ## Claim-level reference definitions

These follow the wording of the specification, to be compared with the
embedded source definitions above. -/

/-- The abstract backend decision of spec §4.4 `selectBackend`. -/
inductive BackendChoice where
  | useWasm
  | useNative
  | errBothForced
  | errForceNativeMissing
  | errForceWasmUnavailable
  | errPreferWasmNoFallback
  | errNeitherAvailable
  deriving DecidableEq, Repr

/-- Spec §4.4 `selectBackend` priority order, written from the claim:
(a) both overrides set is an error; (b) force-native needs a native
binary; (c) force-WASM needs WASM availability; (d) prefer-WASM uses
WASM if available, else native if present, else errors; (e) default
tries native then WASM, else neither is available. -/
def selectBackendSpec (prefer_wasm native_present wasm_available
    force_native force_wasm : Bool) : BackendChoice :=
  if force_native ∧ force_wasm then .errBothForced
  else if force_native then
    if native_present then .useNative else .errForceNativeMissing
  else if force_wasm then
    if wasm_available then .useWasm else .errForceWasmUnavailable
  else if prefer_wasm then
    if wasm_available then .useWasm
    else if native_present then .useNative
    else .errPreferWasmNoFallback
  else if native_present then .useNative
  else if wasm_available then .useWasm
  else .errNeitherAvailable

/-- Concretisation of the abstract decision into the source's
`(use_wasm, error_result)` pair with its exact message strings. -/
def backendInterp (input_path : PyPath) :
    BackendChoice → Option Bool × Option (Bool × PyPath × String)
  | .useWasm => (some true, none)
  | .useNative => (some false, none)
  | .errBothForced =>
    (none, some (false, input_path, "Cannot force both native and WASM backends"))
  | .errForceNativeMissing =>
    (none, some (false, input_path,
      "NOTSO_GLB_FORCE_GLTFPACK_NATIVE set but native gltfpack not found"))
  | .errForceWasmUnavailable =>
    (none, some (false, input_path,
      "NOTSO_GLB_FORCE_GLTFPACK_WASM set but WASM runtime unavailable"))
  | .errPreferWasmNoFallback =>
    (none, some (false, input_path,
      "prefer_wasm=True but WASM unavailable and no native fallback"))
  | .errNeitherAvailable =>
    (none, some (false, input_path,
      "gltfpack not found and WASM fallback unavailable"))

/-! ## Helper lemmas -/

theorem alookup_aerase {κ α : Type} [DecidableEq κ] (l : List (κ × α)) (key : κ) :
    alookup (aerase l key) key = none := by
  induction l with
  | nil => rfl
  | cons hd tl ih =>
    obtain ⟨k, v⟩ := hd
    by_cases h : k = key
    · simpa [aerase, h] using ih
    · simpa [aerase, h, alookup] using ih

/-! ## Claims -/

/-- Claim C2: the linear-memory accessors are claimed to be
bounds-checked (negative offsets and `offset+len` beyond the arena
rejected).  The source performs the access instead: a negative offset
wraps to the end of the arena for single-byte writes, an over-long
read is silently truncated, a multi-byte write with negative offset
lands on the last bytes of the arena, and a fully out-of-range
single-byte write raises an uncaught IndexError rather than returning
an error status.  Each conjunct evaluates the embedded accessor at a
concrete out-of-bounds input. -/
theorem c2_accessors_not_bounds_checked :
    wasiSetU8 [10, 20, 30, 40] (-1) 5 = .ok () [10, 20, 30, 5] ∧
    wasiGetString [10, 20, 30, 40] 2 10 = [30, 40] ∧
    wasiSetU32 [0, 0, 0, 0, 0, 0] (-4) 67305985 = .ok () [0, 0, 1, 2, 3, 4] ∧
    wasiSetU8 [10, 20, 30, 40] 4 7 = .exn .indexError [10, 20, 30, 40] := by
  decide

/-- The state used to evaluate claim C3: one regular file of declared
size 100 at fd 10, with position 0, over an 8-byte arena. -/
def c3State : WasiState :=
  { output_buffer := []
    fds := [(10, { size := some 100, position := some 0 })]
    fs_interface := none
    memory := List.replicate 8 0 }

/-- Claim C3: `wasi_fd_seek32` is claimed to return EINVAL whenever the
resulting position is negative.  On `whence = 0, offset = -10` the
source instead stores the negative position and then raises an
OverflowError from writing it back to `newOffsetPtr`; and on
`whence = 2` it ignores the supplied offset, seeking exactly to
end-of-file (position 100, not 90). -/
theorem c3_seek_negative_not_einval :
    wasi_fd_seek32 c3State 10 (-10) 0 0 =
      .exn .overflowError
        { c3State with fds := [(10, { size := some 100, position := some (-10) })] } ∧
    wasi_fd_seek32 c3State 10 (-10) 2 0 =
      .ok 0
        { output_buffer := []
          fds := [(10, { size := some 100, position := some 100 })]
          fs_interface := none
          memory := [100, 0, 0, 0, 0, 0, 0, 0] } := by
  decide

/-- Claim C4: `proc_exit` is claimed to raise a distinguished
guest-exit signal that unwinds into the engine wrapper.  The source's
handler body is `pass`: it produces no signal for any exit code, and
control returns normally into the guest. -/
theorem c4_proc_exit_is_noop : ∀ rval : Int, wasi_proc_exit rval = none :=
  fun _ => rfl

/-- Claim C7: `_select_backend` resolves the backend in exactly the
claimed priority order: for every combination of force flags,
preference, native-binary presence and WASM availability, the source
function equals the spec-worded priority order concretised with the
source's message strings. -/
theorem c7_select_backend_priority (ip : PyPath) (pw : Bool)
    (g : Option String) (fn fw wa : Bool) :
    select_backend ip pw g fn fw wa =
      backendInterp ip (selectBackendSpec pw (pyStrTruthy g) wa fn fw) := by
  cases fn <;> cases fw <;> cases pw <;> cases wa <;>
    cases hg : pyStrTruthy g <;>
      simp [select_backend, selectBackendSpec, backendInterp, hg]

/-- Claim C10: `wasi_fd_close` removes a known descriptor on every
path, including the EIO path where the flush-on-close copy fails; on
that path the filesystem map is left unchanged, so the file's bytes
were not flushed into it. -/
theorem c10_fd_close_always_removes (st : WasiState) (fd : Int) (info : FdInfo)
    (h : alookup st.fds fd = some info) :
    alookup (wasi_fd_close st fd).2.fds fd = none ∧
    ((wasi_fd_close st fd).1 = 0 ∨
      ((wasi_fd_close st fd).1 = WASI_EIO_code ∧
        (wasi_fd_close st fd).2.fs_interface = st.fs_interface)) := by
  simp only [wasi_fd_close, h]
  by_cases hc : info.close_data = true ∧ st.fs_interface.isSome = true
  · rw [if_pos hc]
    cases hd : info.data with
    | none =>
      cases hs : info.size <;>
        exact ⟨alookup_aerase st.fds fd, Or.inr ⟨rfl, rfl⟩⟩
    | some d =>
      cases hs : info.size with
      | none => exact ⟨alookup_aerase st.fds fd, Or.inr ⟨rfl, rfl⟩⟩
      | some sz => exact ⟨alookup_aerase st.fds fd, Or.inl rfl⟩
  · rw [if_neg hc]
    exact ⟨alookup_aerase st.fds fd, Or.inl rfl⟩

/-- A flush-on-close descriptor whose `data` key is missing: closing it
takes the EIO path. -/
def c10Info : FdInfo := { name := some "out.glb", close_data := true }

/-- The state used to witness claim C10. -/
def c10St : WasiState :=
  { output_buffer := [], fds := [(7, c10Info)], fs_interface := some [], memory := [] }

/-- Witness for claim C10 at a concrete error-path input. -/
theorem c10_witness :
    alookup c10St.fds 7 = some c10Info ∧
    (alookup (wasi_fd_close c10St 7).2.fds 7 = none ∧
      ((wasi_fd_close c10St 7).1 = 0 ∨
        ((wasi_fd_close c10St 7).1 = WASI_EIO_code ∧
          (wasi_fd_close c10St 7).2.fs_interface = c10St.fs_interface))) :=
  ⟨by decide, c10_fd_close_always_removes c10St 7 c10Info (by decide)⟩

/-- Claim C1: `run_gltfpack_wasm` (runner.py) is claimed never to
raise.  Two concrete evaluations refute this: the function's first
statement `from . import get_wasm_path, is_available` fails, because
`get_wasm_path` is not among the names the package namespace binds
(only `_get_wasm_path` is); and `_execute`'s handler catches only
UnicodeDecodeError / OSError / ValueError / TypeError, so an engine
exception such as a guest trap (or that ImportError) propagates.  An
OSError, by contrast, is converted to the uniform failure triple. -/
theorem c1_runner_can_raise :
    "get_wasm_path" ∉ wasmPackageNames ∧
    "_get_wasm_path" ∈ wasmPackageNames ∧
    execute ⟨"", "a_packed.glb"⟩ (.exn .wasmtimeTrap ()) =
      .exn .wasmtimeTrap () ∧
    execute ⟨"", "a_packed.glb"⟩ (.exn .importError ()) =
      .exn .importError () ∧
    execute ⟨"", "a_packed.glb"⟩ (.exn .osError ()) =
      .ok (false, ⟨"", "a_packed.glb"⟩, "File I/O error: ") () := by
  decide

/-- Counterexample to claim C6 as stated: the package-level
`run_gltfpack_wasm` (wasm/ __init__.py), the one importable as
`notso_glb.wasm.run_gltfpack_wasm`, builds the extra-args list with
`-tc` when texture compression is requested (its default). -/
theorem c6_counterexample :
    legacy_build_args (fun _ => "0.5") (fun _ => "5") true true none none =
      .ok ["-tc", "-cc"] ∧
    "-tc" ∈ ["-tc", "-cc"] := by
  exact ⟨rfl, by decide⟩

/-- Claim C6 (amended): the runner-module argument builder
`_build_args` never emits `-tc` or `-tq` (texture quality is deleted
before it is ever consulted and is not even a parameter); `-cc`
appears exactly when mesh compression is requested and validation
passed, and `-si` exactly when a valid ratio was supplied.  `fstr`
renders the ratio; the hypothesis records that a rendered float is
never itself one of the flag spellings. -/
theorem c6_runner_args_no_tc (fstr : ℚ → String) (mc : Bool) (r : Option ℚ)
    (hf : ∀ x : ℚ, fstr x ∉ (["-tc", "-tq", "-cc", "-si"] : List String)) :
    "-tc" ∉ (build_args fstr mc r).1 ∧
    "-tq" ∉ (build_args fstr mc r).1 ∧
    ("-cc" ∈ (build_args fstr mc r).1 ↔ mc = true ∧ (build_args fstr mc r).2 = none) ∧
    ("-si" ∈ (build_args fstr mc r).1 ↔ ∃ x, r = some x ∧ 0 ≤ x ∧ x ≤ 1) := by
  cases r with
  | none => cases mc <;> simp [build_args]
  | some x =>
    have h1 : fstr x ≠ "-tc" := fun he => hf x (by rw [he]; decide)
    have h2 : fstr x ≠ "-tq" := fun he => hf x (by rw [he]; decide)
    have h3 : fstr x ≠ "-cc" := fun he => hf x (by rw [he]; decide)
    have h4 : fstr x ≠ "-si" := fun he => hf x (by rw [he]; decide)
    by_cases hx : 0 ≤ x ∧ x ≤ 1
    · cases mc <;>
        simp [build_args, hx, Ne.symm h1, Ne.symm h2, Ne.symm h3, Ne.symm h4]
    · cases mc <;> simp [build_args, hx]

/-- The concrete float renderer used to witness claim C6. -/
def c6fstr : ℚ → String := fun _ => "0.5"

/-- Witness for claim C6 at concrete inputs. -/
theorem c6_witness :
    "-tc" ∉ (build_args c6fstr true (some (1 / 2))).1 ∧
    "-tq" ∉ (build_args c6fstr true (some (1 / 2))).1 ∧
    ("-cc" ∈ (build_args c6fstr true (some (1 / 2))).1 ↔
      true = true ∧ (build_args c6fstr true (some (1 / 2))).2 = none) ∧
    ("-si" ∈ (build_args c6fstr true (some (1 / 2))).1 ↔
      ∃ x, (some (1 / 2) : Option ℚ) = some x ∧ 0 ≤ x ∧ x ≤ 1) :=
  c6_runner_args_no_tc c6fstr true (some (1 / 2))
    (fun x => by
      show ("0.5" : String) ∉ (["-tc", "-tq", "-cc", "-si"] : List String)
      decide)

/-- Claim C5: whenever the argv upload, the guest `pack` entry point
and the `free` call complete (the guest returning code `r` and leaving
final state `st5`), `pack` returns
`(r == 0, virtualFilesystem.get(outputName) ?? empty, log)`; in
particular a zero return code with no output file in the virtual
filesystem yields success with empty bytes, not a failure. -/
theorem c5_pack_result (eng : Engine) (st : WasiState) (input_data : List Nat)
    (input_name output_name : String) (args : Option (List String))
    (buf : Int) (st3 : WasiState) (r : Int) (st4 st5 : WasiState)
    (fsMap : List (String × List Nat))
    (hup : upload_argv eng
        { init_fds st with fs_interface := some [(input_name, input_data)] }
        (["gltfpack", "-i", input_name, "-o", output_name] ++ args.getD []) =
      .ok buf st3)
    (hpk : eng.packFn
        (["gltfpack", "-i", input_name, "-o", output_name] ++ args.getD []).length
        buf st3 = some (r, st4))
    (hfr : eng.free buf st4 = some st5)
    (hfs : st5.fs_interface = some fsMap) :
    (r ≠ 0 → pack eng st input_data input_name output_name args =
      .ok (false, [], st5.output_buffer) st5) ∧
    (r = 0 → pack eng st input_data input_name output_name args =
      .ok (true, (alookup fsMap output_name).getD [], st5.output_buffer) st5) ∧
    (r = 0 → alookup fsMap output_name = none →
      pack eng st input_data input_name output_name args =
        .ok (true, [], st5.output_buffer) st5) := by
  simp only [pack, hup, hpk, hfr, hfs]
  refine ⟨fun hr => ?_, fun hr => ?_, fun hr hn => ?_⟩
  · simp [hr]
  · simp [hr]
  · simp [hr, hn]

/-- The trivial engine used to witness claim C5: `malloc` hands out
pointer 0, the guest entry point returns 0 without touching state,
`free` succeeds. -/
def c5Eng : Engine where
  malloc := fun _ st => some (0, st)
  packFn := fun _ _ st => some (0, st)
  free := fun _ st => some st

/-- Initial state for the C5 witness: a 40-byte arena. -/
def c5St : WasiState := { memory := List.replicate 40 0 }

/-- State extraction from a fallible result (for naming the
post-upload state in the C5 witness). -/
def pyrStateD {α σ : Type} : PyR α σ → σ
  | .ok _ s => s
  | .exn _ s => s

/-- The state after the C5 witness argv upload. -/
def c5St3 : WasiState :=
  pyrStateD (upload_argv c5Eng
    { init_fds c5St with fs_interface := some [("i", [1, 2, 3])] }
    (["gltfpack", "-i", "i", "-o", "o"] ++ (none : Option (List String)).getD []))

/-- Witness for claim C5: a concrete run in which the guest returns 0
yet no file named `"o"` exists, giving success with empty bytes. -/
theorem c5_witness :
    upload_argv c5Eng
        { init_fds c5St with fs_interface := some [("i", [1, 2, 3])] }
        (["gltfpack", "-i", "i", "-o", "o"] ++ (none : Option (List String)).getD []) =
      .ok 0 c5St3 ∧
    pack c5Eng c5St [1, 2, 3] "i" "o" none =
      .ok (true, [], c5St3.output_buffer) c5St3 :=
  ⟨by rfl,
    (c5_pack_result c5Eng c5St [1, 2, 3] "i" "o" none 0 c5St3 0 c5St3 c5St3
      [("i", [1, 2, 3])] (by rfl) (by rfl) (by rfl) (by rfl)).2.2 rfl (by rfl)⟩

/-! ## Lemmas about the default output-name computation (claim C8) -/

theorem lastDotIdx_append_of_some (a b : List Char) (j : Nat)
    (hb : lastDotIdx b = some j) :
    lastDotIdx (a ++ b) = some (a.length + j) := by
  induction a with
  | nil => simp [hb]
  | cons c cs ih =>
    simp only [List.cons_append, lastDotIdx, List.append_eq, ih,
      List.length_cons, Option.some.injEq]
    omega

theorem lastDotIdx_append_of_none (a b : List Char)
    (hb : lastDotIdx b = none) :
    lastDotIdx (a ++ b) = lastDotIdx a := by
  induction a with
  | nil => simp [hb, lastDotIdx]
  | cons c cs ih =>
    simp only [List.cons_append, lastDotIdx, List.append_eq, ih]

theorem lastDotIdx_eq_none_iff (l : List Char) :
    lastDotIdx l = none ↔ '.' ∉ l := by
  induction l with
  | nil => simp [lastDotIdx]
  | cons c cs ih =>
    cases h : lastDotIdx cs with
    | some i =>
      have hmem : '.' ∈ cs := by
        by_contra hm
        exact absurd (ih.mpr hm) (by simp [h])
      simp [lastDotIdx, h, hmem]
    | none =>
      have hm : '.' ∉ cs := ih.mp h
      by_cases hc : c = '.'
      · simp [lastDotIdx, h, hc]
      · simp [lastDotIdx, h, hc, hm, Ne.symm hc]

theorem lastDotIdx_drop_structure (l : List Char) (i : Nat)
    (h : lastDotIdx l = some i) :
    ∃ t, l.drop i = '.' :: t ∧ lastDotIdx t = none := by
  induction l generalizing i with
  | nil => simp [lastDotIdx] at h
  | cons c cs ih =>
    cases hcs : lastDotIdx cs with
    | some j =>
      simp only [lastDotIdx, hcs, Option.some.injEq] at h
      obtain ⟨t, ht, hn⟩ := ih j hcs
      exact ⟨t, by rw [← h]; simpa using ht, hn⟩
    | none =>
      simp only [lastDotIdx, hcs] at h
      by_cases hc : c = '.'
      · rw [if_pos hc] at h
        obtain rfl : i = 0 := by simpa using h.symm
        exact ⟨cs, by simp [hc], hcs⟩
      · rw [if_neg hc] at h
        exact absurd h (by simp)

theorem dot_mem_drop_one_of_lastDotIdx (l : List Char) (i : Nat)
    (h : lastDotIdx l = some i) (hi : 1 ≤ i) :
    '.' ∈ l.drop 1 := by
  obtain ⟨t, ht, _⟩ := lastDotIdx_drop_structure l i h
  have h1 : '.' ∈ l.drop i := by rw [ht]; exact List.mem_cons_self _ _
  have h2 : l.drop i = (l.drop 1).drop (i - 1) := by
    rw [List.drop_drop]
    congr 1
    omega
  rw [h2] at h1
  exact List.mem_of_mem_drop h1

theorem pyStemSuffix_eq_self_of_no_tail_dot (l : List Char)
    (h : '.' ∉ l.drop 1) : pyStemSuffix l = (l, []) := by
  cases hli : lastDotIdx l with
  | none => simp [pyStemSuffix, hli]
  | some i =>
    have hi : i = 0 := by
      by_contra hne
      exact h (dot_mem_drop_one_of_lastDotIdx l i hli (by omega))
    subst hi
    simp [pyStemSuffix, hli]

theorem dropPacked_append_packed (y : List Char) :
    dropPacked (y ++ packedChars) = y := by
  have hlen : (y ++ packedChars).length = y.length + 7 := by
    simp [packedChars]
  have hsub : (y ++ packedChars).length - 7 = y.length := by omega
  have hc : 7 ≤ (y ++ packedChars).length ∧
      (y ++ packedChars).drop ((y ++ packedChars).length - 7) = packedChars := by
    constructor
    · omega
    · rw [hsub]
      exact List.drop_left y packedChars
  rw [dropPacked, if_pos hc, hsub]
  exact List.take_left y packedChars

theorem no_tail_dot_dropPacked (l : List Char) (h : '.' ∉ l.drop 1) :
    '.' ∉ (dropPacked l).drop 1 := by
  unfold dropPacked
  split
  · intro hm
    rw [List.drop_take] at hm
    exact h (List.Sublist.mem hm (List.take_sublist _ _))
  · exact h

theorem packedChars_no_dot : '.' ∉ packedChars := by decide

theorem lastDotIdx_packedChars : lastDotIdx packedChars = none := by decide

/-- Reduction of `pyStemSuffix` when the last dot is interior. -/
theorem pyStemSuffix_of_some (l : List Char) (i : Nat)
    (h : lastDotIdx l = some i) (hc : 0 < i ∧ i < l.length - 1) :
    pyStemSuffix l = (l.take i, l.drop i) := by
  simp [pyStemSuffix, h, hc]

/-- Core of claim C8: the default output-name transformation is
idempotent on every name that has a nonempty suffix or no dot past its
first character. -/
theorem resolveName_idem (n : List Char)
    (h : (pyStemSuffix n).2 ≠ [] ∨ '.' ∉ n.drop 1) :
    resolveName (resolveName n) = resolveName n := by
  cases h with
  | inl hx =>
    cases hli : lastDotIdx n with
    | none => simp [pyStemSuffix, hli] at hx
    | some i =>
      by_cases hcond : 0 < i ∧ i < n.length - 1
      · obtain ⟨t, hdrop, htn⟩ := lastDotIdx_drop_structure n i hli
        have hsp : pyStemSuffix n = (n.take i, '.' :: t) := by
          rw [pyStemSuffix_of_some n i hli hcond, hdrop]
        have hres : resolveName n =
            (dropPacked (n.take i) ++ packedChars) ++ ('.' :: t) := by
          rw [resolveName, hsp, List.append_assoc]
        have htlen : 1 ≤ t.length := by
          have hdl : (n.drop i).length = n.length - i := List.length_drop i n
          rw [hdrop] at hdl
          simp only [List.length_cons] at hdl
          omega
        have hX : lastDotIdx ('.' :: t) = some 0 := by
          simp [lastDotIdx, htn]
        have h1 : lastDotIdx ((dropPacked (n.take i) ++ packedChars) ++ ('.' :: t)) =
            some ((dropPacked (n.take i) ++ packedChars).length) := by
          simpa using
            lastDotIdx_append_of_some (dropPacked (n.take i) ++ packedChars) _ 0 hX
        have hplen : (dropPacked (n.take i) ++ packedChars).length =
            (dropPacked (n.take i)).length + 7 := by simp [packedChars]
        have hcond2 :
            0 < (dropPacked (n.take i) ++ packedChars).length ∧
            (dropPacked (n.take i) ++ packedChars).length <
              ((dropPacked (n.take i) ++ packedChars) ++ ('.' :: t)).length - 1 := by
          constructor
          · omega
          · simp only [List.length_append, List.length_cons]
            omega
        have hsp2 : pyStemSuffix ((dropPacked (n.take i) ++ packedChars) ++ ('.' :: t)) =
            (dropPacked (n.take i) ++ packedChars, '.' :: t) := by
          rw [pyStemSuffix_of_some _ _ h1 hcond2, List.take_left, List.drop_left]
        rw [hres]
        rw [resolveName, hsp2]
        simp only
        rw [dropPacked_append_packed, List.append_assoc]
      · simp [pyStemSuffix, hli, hcond] at hx
  | inr hnd =>
    have hsn : pyStemSuffix n = (n, []) := pyStemSuffix_eq_self_of_no_tail_dot n hnd
    have hres : resolveName n = dropPacked n ++ packedChars := by
      rw [resolveName, hsn]
      simp
    have hmd : '.' ∉ (dropPacked n ++ packedChars).drop 1 := by
      have hdp : '.' ∉ (dropPacked n).drop 1 := no_tail_dot_dropPacked n hnd
      cases hd : dropPacked n with
      | nil => simpa using (by decide : '.' ∉ packedChars.drop 1)
      | cons c cs =>
        rw [hd] at hdp
        simp only [List.drop_one] at hdp
        simp only [List.cons_append, List.drop_one, List.tail_cons]
        intro hm
        rcases List.mem_append.mp hm with hm1 | hm2
        · exact hdp (by simpa using hm1)
        · exact packedChars_no_dot hm2
    have hsm : pyStemSuffix (dropPacked n ++ packedChars) =
        (dropPacked n ++ packedChars, []) :=
      pyStemSuffix_eq_self_of_no_tail_dot _ hmd
    rw [hres]
    rw [resolveName, hsm]
    simp only
    rw [dropPacked_append_packed]
    simp

/-- Counterexample to claim C8 as stated: on the valid path name
`"a."` (empty `Path.suffix`, but a dot past the first character) the
default naming is not idempotent: one application yields
`"a._packed"`, a second yields `"a_packed._packed"`. -/
theorem c8_counterexample :
    resolve_output_path (resolve_output_path ⟨"d", "a."⟩ none) none ≠
      resolve_output_path ⟨"d", "a."⟩ none := by
  decide

/-- Claim C8 (amended): an explicit output is returned verbatim, and
the default `_packed` naming is idempotent for every path whose name
has a nonempty suffix or contains no dot past its first character
(trailing-dot names such as `"a."` are the exception). -/
theorem c8_resolve_output_path_idem (p : PyPath)
    (h : (pyStemSuffix p.name.data).2 ≠ [] ∨ '.' ∉ p.name.data.drop 1) :
    resolve_output_path (resolve_output_path p none) none =
      resolve_output_path p none ∧
    ∀ q o : PyPath, resolve_output_path q (some o) = o := by
  constructor
  · show (⟨p.parent, String.mk (resolveName (String.mk (resolveName p.name.data)).data)⟩ :
      PyPath) = ⟨p.parent, String.mk (resolveName p.name.data)⟩
    have : (String.mk (resolveName p.name.data)).data = resolveName p.name.data := rfl
    rw [this, resolveName_idem p.name.data h]
  · intro q o
    rfl

/-- Witness for claim C8 at a concrete input with a nonempty suffix. -/
theorem c8_witness :
    ((pyStemSuffix ("model.glb".data)).2 ≠ [] ∨ '.' ∉ ("model.glb".data).drop 1) ∧
    (resolve_output_path (resolve_output_path ⟨"d", "model.glb"⟩ none) none =
        resolve_output_path ⟨"d", "model.glb"⟩ none ∧
      ∀ q o : PyPath, resolve_output_path q (some o) = o) :=
  ⟨Or.inl (by decide),
    c8_resolve_output_path_idem ⟨"d", "model.glb"⟩ (Or.inl (by decide))⟩

/-! ## Lemmas about in-bounds memory accesses (claim C9) -/

theorem pySliceBound_of_le (n : Nat) (i : Int) (h0 : 0 ≤ i) (hn : i ≤ n) :
    pySliceBound n i = i.toNat := by
  unfold pySliceBound
  rw [if_neg (by omega), max_eq_left h0, min_eq_left hn]

theorem pySlice_eq_of_bounds (l : List Nat) (a b : Int) (h0 : 0 ≤ a)
    (hab : a ≤ b) (hb : b ≤ l.length) :
    pySlice l a b = (l.drop a.toNat).take (b.toNat - a.toNat) := by
  unfold pySlice
  rw [pySliceBound_of_le l.length a h0 (by omega),
    pySliceBound_of_le l.length b (by omega) hb]

theorem pySlice_nat_length (l : List Nat) (a k : Nat) (hk : a + k ≤ l.length) :
    (pySlice l (a : Int) ((a : Int) + (k : Int))).length = k := by
  rw [pySlice_eq_of_bounds l a ((a : Int) + (k : Int)) (by omega) (by omega)
    (by push_cast; omega)]
  simp only [List.length_take, List.length_drop]
  have h1 : ((a : Int) + (k : Int)).toNat = a + k := by omega
  have h2 : (a : Int).toNat = a := by omega
  rw [h1, h2]
  omega

theorem pySliceAssign_eq_of_bounds (l : List Nat) (a b : Int) (r : List Nat)
    (h0 : 0 ≤ a) (hab : a ≤ b) (hb : b ≤ l.length) :
    pySliceAssign l a b r = l.take a.toNat ++ r ++ l.drop b.toNat := by
  unfold pySliceAssign
  rw [pySliceBound_of_le l.length a h0 (by omega),
    pySliceBound_of_le l.length b (by omega) hb]
  simp only [max_eq_right (show a.toNat ≤ b.toNat by omega)]

theorem pySetIndex_of_lt (l : List Nat) (i : Int) (v : Nat) (h0 : 0 ≤ i)
    (hl : i < l.length) :
    pySetIndex l i v = some (l.set i.toNat v) := by
  simp only [pySetIndex, pyIndex]
  rw [if_neg (show ¬ i < 0 by omega), if_pos ⟨h0, hl⟩]
  rfl

theorem setChain_eq_splice (mem : List Nat) (o : Nat) (b0 b1 b2 b3 : Nat)
    (h : o + 4 ≤ mem.length) :
    (((mem.set o b0).set (o + 1) b1).set (o + 2) b2).set (o + 3) b3 =
      mem.take o ++ [b0, b1, b2, b3] ++ mem.drop (o + 4) := by
  induction o generalizing mem with
  | zero =>
    match mem, h with
    | m0 :: m1 :: m2 :: m3 :: rest, _ => rfl
  | succ k ih =>
    match mem, h with
    | c :: rest, h =>
      have hr : k + 4 ≤ rest.length := by
        simp only [List.length_cons] at h
        omega
      calc (((((c :: rest).set (k + 1) b0).set (k + 2) b1).set (k + 3) b2).set
            (k + 4) b3)
          = c :: ((((rest.set k b0).set (k + 1) b1).set (k + 2) b2).set (k + 3) b3) := by
            simp [List.set]
        _ = c :: (rest.take k ++ [b0, b1, b2, b3] ++ rest.drop (k + 4)) := by
            rw [ih rest hr]
        _ = (c :: rest).take (k + 1) ++ [b0, b1, b2, b3] ++ (c :: rest).drop (k + 1 + 4) := by
            simp [List.take, List.drop]

theorem natFromLeBytes_leBytes (v : Int) (h0 : 0 ≤ v) (h32 : v < 2 ^ 32) :
    natFromLeBytes [leByte v 0, leByte v 1, leByte v 2, leByte v 3] = v.toNat := by
  simp only [natFromLeBytes, leByte, List.foldr]
  have hv : v.toNat < 4294967296 := by omega
  omega

theorem wasiGetU32_nonneg (mem : List Nat) (off : Int) : 0 ≤ wasiGetU32 mem off :=
  Int.ofNat_nonneg _

theorem wasiSetU32_ok (mem : List Nat) (off v : Int) (h0 : 0 ≤ off)
    (h4 : off.toNat + 4 ≤ mem.length) (hv : 0 ≤ v) (hv2 : v < 2 ^ 32) :
    wasiSetU32 mem off v =
      .ok () (mem.take off.toNat ++
        [leByte v 0, leByte v 1, leByte v 2, leByte v 3] ++
        mem.drop (off.toNat + 4)) := by
  have hlen0 : (mem.set off.toNat (leByte v 0)).length = mem.length :=
    List.length_set mem _ _
  have hlen1 : ((mem.set off.toNat (leByte v 0)).set (off.toNat + 1)
      (leByte v 1)).length = mem.length := by
    rw [List.length_set, hlen0]
  have hlen2 : (((mem.set off.toNat (leByte v 0)).set (off.toNat + 1)
      (leByte v 1)).set (off.toNat + 2) (leByte v 2)).length = mem.length := by
    rw [List.length_set, hlen1]
  have e1 : pySetIndex mem off (leByte v 0) =
      some (mem.set off.toNat (leByte v 0)) :=
    pySetIndex_of_lt mem off (leByte v 0) h0 (by omega)
  have e2 : pySetIndex (mem.set off.toNat (leByte v 0)) (off + 1) (leByte v 1) =
      some ((mem.set off.toNat (leByte v 0)).set (off.toNat + 1) (leByte v 1)) := by
    rw [pySetIndex_of_lt _ (off + 1) (leByte v 1) (by omega) (by rw [hlen0]; omega),
      show (off + 1).toNat = off.toNat + 1 by omega]
  have e3 : pySetIndex ((mem.set off.toNat (leByte v 0)).set (off.toNat + 1)
        (leByte v 1)) (off + 2) (leByte v 2) =
      some (((mem.set off.toNat (leByte v 0)).set (off.toNat + 1)
        (leByte v 1)).set (off.toNat + 2) (leByte v 2)) := by
    rw [pySetIndex_of_lt _ (off + 2) (leByte v 2) (by omega) (by rw [hlen1]; omega),
      show (off + 2).toNat = off.toNat + 2 by omega]
  have e4 : pySetIndex (((mem.set off.toNat (leByte v 0)).set (off.toNat + 1)
        (leByte v 1)).set (off.toNat + 2) (leByte v 2)) (off + 3) (leByte v 3) =
      some ((((mem.set off.toNat (leByte v 0)).set (off.toNat + 1)
        (leByte v 1)).set (off.toNat + 2) (leByte v 2)).set (off.toNat + 3)
        (leByte v 3)) := by
    rw [pySetIndex_of_lt _ (off + 3) (leByte v 3) (by omega) (by rw [hlen2]; omega),
      show (off + 3).toNat = off.toNat + 3 by omega]
  unfold wasiSetU32
  rw [if_neg (by omega)]
  simp only [e1, e2, e3, e4]
  rw [setChain_eq_splice mem off.toNat _ _ _ _ h4]

theorem wasiGetU32_prefix (A B rest : List Nat) (hB : B.length = 4) :
    wasiGetU32 (A ++ B ++ rest) (A.length : Int) = natFromLeBytes B := by
  have hlen : (A ++ B ++ rest).length = A.length + 4 + rest.length := by
    simp [hB]
    omega
  unfold wasiGetU32
  rw [pySlice_eq_of_bounds _ _ _ (by omega) (by omega)
    (by rw [hlen]; push_cast; omega)]
  rw [show ((A.length : Int) + 4).toNat = A.length + 4 by omega,
    show ((A.length : Int)).toNat = A.length by omega]
  rw [List.append_assoc, List.drop_left]
  rw [show A.length + 4 - A.length = 4 by omega]
  rw [← hB, List.take_left]

theorem wasiGetU32_splice (mem B : List Nat) (o : Nat) (hB : B.length = 4)
    (h : o + 4 ≤ mem.length) :
    wasiGetU32 (mem.take o ++ B ++ mem.drop (o + 4)) (o : Int) =
      natFromLeBytes B := by
  have hto : (mem.take o).length = o := by
    rw [List.length_take]
    omega
  rw [show (o : Int) = ((mem.take o).length : Int) from by rw [hto]]
  exact wasiGetU32_prefix _ _ _ hB

/-! ## Claim-level description of `fd_write` (claim C9) -/

/-- One chunk of the claimed RegularFile write behaviour, in the
claim's words: grow the backing buffer to
`max(2 * capacity, position + length)` whenever the write would exceed
capacity, write the bytes at the cursor, advance the cursor by the
bytes written, and update `size` to `max(size, position + written)`.
Returns `(data, size, position)`. -/
def claimWriteChunk (d : List Nat) (sz pos : Nat) (c : List Nat) :
    List Nat × Nat × Nat :=
  let d1 :=
    if pos + c.length > d.length then
      d ++ List.replicate (max (2 * d.length) (pos + c.length) - d.length) 0
    else d
  (d1.take pos ++ c ++ d1.drop (pos + c.length),
   max sz (pos + c.length), pos + c.length)

/-- Folding the claimed per-chunk behaviour over all iovec chunks. -/
def claimWriteChunks : List Nat → Nat → Nat → List (List Nat) →
    List Nat × Nat × Nat
  | d, sz, pos, [] => (d, sz, pos)
  | d, sz, pos, c :: cs =>
    claimWriteChunks (claimWriteChunk d sz pos c).1
      (claimWriteChunk d sz pos c).2.1 (claimWriteChunk d sz pos c).2.2 cs

/-- Guest memory encodes the iovec array `(ptr, len)*` starting at
array index `i`. -/
def EncodesIovecsFrom (mem : List Nat) (iovs : Int) :
    Nat → List (Nat × Nat) → Prop
  | _, [] => True
  | i, pl :: rest =>
    wasiGetU32 mem (iovs + 8 * i) = (pl.1 : Int) ∧
    wasiGetU32 mem (iovs + 8 * i + 4) = (pl.2 : Int) ∧
    EncodesIovecsFrom mem iovs (i + 1) rest

/-- Every iovec stays within the arena. -/
def IovecsBounded (memLen : Nat) : List (Nat × Nat) → Prop
  | [] => True
  | pl :: rest => pl.1 + pl.2 ≤ memLen ∧ IovecsBounded memLen rest

/-- The byte chunks denoted by the iovec list. -/
def iovecChunks (mem : List Nat) (pairs : List (Nat × Nat)) : List (List Nat) :=
  pairs.map fun pl => pySlice mem (pl.1 : Int) ((pl.1 : Int) + (pl.2 : Int))

theorem fdWriteStep_regular (mem : List Nat) (iovs : Int) (i : Nat)
    (mo pa na : Option String) (cd : Bool) (outbuf : List Nat)
    (total : Int) (d : List Nat) (p s : Nat) (p1 p2 : Nat)
    (h1 : wasiGetU32 mem (iovs + 8 * i) = (p1 : Int))
    (h2 : wasiGetU32 mem (iovs + 8 * i + 4) = (p2 : Int))
    (hb : p1 + p2 ≤ mem.length) :
    fdWriteStep mem iovs i
      ⟨none, mo, pa, na, some (p : Int), some (s : Int), some d, cd⟩ outbuf
      total =
      (⟨none, mo, pa, na,
        some (((claimWriteChunk d s p
          (pySlice mem (p1 : Int) ((p1 : Int) + (p2 : Int)))).2.2 : Int)),
        some (((claimWriteChunk d s p
          (pySlice mem (p1 : Int) ((p1 : Int) + (p2 : Int)))).2.1 : Int)),
        some ((claimWriteChunk d s p
          (pySlice mem (p1 : Int) ((p1 : Int) + (p2 : Int)))).1), cd⟩,
       outbuf, total + (p2 : Int)) := by
  have hclen : (pySlice mem (p1 : Int) ((p1 : Int) + (p2 : Int))).length = p2 :=
    pySlice_nat_length mem p1 p2 hb
  have hp : ((p : Int)).toNat = p := by omega
  have hpp2 : ((p : Int) + (p2 : Int)).toNat = p + p2 := by omega
  have hmax : (max (2 * (d.length : Int)) ((p : Int) + (p2 : Int))).toNat =
      max (2 * d.length) (p + p2) := by
    rcases le_total (2 * (d.length : Int)) ((p : Int) + (p2 : Int)) with hle | hle
    · rw [max_eq_right hle, max_eq_right (by omega : 2 * d.length ≤ p + p2)]
      omega
    · rw [max_eq_left hle, max_eq_left (by omega : p + p2 ≤ 2 * d.length)]
      omega
  simp only [fdWriteStep, h1, h2]
  by_cases hg : d.length < p + p2
  · have hgi : ((p : Int) + (p2 : Int) > ((d.length : Nat) : Int)) := by
      push_cast
      omega
    have hlen1 : (d ++ List.replicate
        ((max (2 * (d.length : Int)) ((p : Int) + (p2 : Int))).toNat - d.length)
        0).length = max (2 * d.length) (p + p2) := by
      rw [hmax]
      simp only [List.length_append, List.length_replicate]
      omega
    simp only [reduceCtorEq, if_false, Option.getD_some, hgi, if_true]
    rw [pySliceAssign_eq_of_bounds _ _ _ _ (by omega) (by omega)
      (by rw [hlen1]; push_cast; omega)]
    rw [hp, hpp2, hmax]
    simp only [claimWriteChunk, hclen, if_pos hg]
    push_cast [Nat.cast_max]
    ring_nf
  · have hgi : ¬ ((p : Int) + (p2 : Int) > ((d.length : Nat) : Int)) := by
      push_cast
      omega
    simp only [reduceCtorEq, if_false, Option.getD_some, hgi, if_true]
    rw [pySliceAssign_eq_of_bounds _ _ _ _ (by omega) (by omega)
      (by push_cast; omega)]
    rw [hp, hpp2]
    simp only [claimWriteChunk, hclen, if_neg hg]
    push_cast [Nat.cast_max]
    ring_nf

theorem fdWriteStep_output (mem : List Nat) (iovs : Int) (i : Nat)
    (info : FdInfo) (htyp : info.typ = some "output")
    (outbuf : List Nat) (total : Int) (p1 p2 : Nat)
    (h1 : wasiGetU32 mem (iovs + 8 * i) = (p1 : Int))
    (h2 : wasiGetU32 mem (iovs + 8 * i + 4) = (p2 : Int)) :
    fdWriteStep mem iovs i info outbuf total =
      (info, outbuf ++ pySlice mem (p1 : Int) ((p1 : Int) + (p2 : Int)),
       total + (p2 : Int)) := by
  simp only [fdWriteStep, h1, h2, htyp]
  simp only [if_true]

theorem fdWriteLoop_output (mem : List Nat) (iovs : Int)
    (pairs : List (Nat × Nat)) (i0 : Nat) (info : FdInfo)
    (htyp : info.typ = some "output") (outbuf : List Nat) (total : Int)
    (henc : EncodesIovecsFrom mem iovs i0 pairs) :
    fdWriteLoop mem iovs pairs.length i0 (info, outbuf, total) =
      (info, outbuf ++ (iovecChunks mem pairs).flatten,
       total + ((pairs.map Prod.snd).sum : Int)) := by
  induction pairs generalizing i0 outbuf total with
  | nil =>
    simp [fdWriteLoop, iovecChunks]
  | cons pl rest ih =>
    obtain ⟨e1, e2, henc2⟩ := henc
    simp only [List.length_cons, fdWriteLoop]
    rw [fdWriteStep_output mem iovs i0 info htyp outbuf total pl.1 pl.2 e1 e2]
    rw [ih (i0 + 1) _ _ henc2]
    refine Prod.ext rfl (Prod.ext ?_ ?_)
    · simp [iovecChunks, List.append_assoc]
    · show total + (pl.2 : Int) + ((rest.map Prod.snd).sum : Int) =
        total + (((pl.2 :: rest.map Prod.snd).sum : Nat) : Int)
      simp only [List.sum_cons]
      push_cast
      ring

theorem fdWriteLoop_regular (mem : List Nat) (iovs : Int)
    (pairs : List (Nat × Nat)) (i0 : Nat) (mo pa na : Option String)
    (cd : Bool) (outbuf : List Nat) (total : Int) (d : List Nat) (p s : Nat)
    (henc : EncodesIovecsFrom mem iovs i0 pairs)
    (hbnd : IovecsBounded mem.length pairs) :
    fdWriteLoop mem iovs pairs.length i0
      (⟨none, mo, pa, na, some (p : Int), some (s : Int), some d, cd⟩,
       outbuf, total) =
      (⟨none, mo, pa, na,
        some (((claimWriteChunks d s p (iovecChunks mem pairs)).2.2 : Int)),
        some (((claimWriteChunks d s p (iovecChunks mem pairs)).2.1 : Int)),
        some ((claimWriteChunks d s p (iovecChunks mem pairs)).1), cd⟩,
       outbuf, total + ((pairs.map Prod.snd).sum : Int)) := by
  induction pairs generalizing i0 outbuf total d p s with
  | nil =>
    simp [fdWriteLoop, iovecChunks, claimWriteChunks]
  | cons pl rest ih =>
    obtain ⟨e1, e2, henc2⟩ := henc
    obtain ⟨hb1, hbnd2⟩ := hbnd
    simp only [List.length_cons, fdWriteLoop]
    rw [fdWriteStep_regular mem iovs i0 mo pa na cd outbuf total d p s pl.1 pl.2
      e1 e2 hb1]
    rw [ih (i0 + 1) _ _ _ _ _ henc2 hbnd2]
    refine Prod.ext ?_ (Prod.ext rfl ?_)
    · show (⟨none, mo, pa, na, _, _, _, cd⟩ : FdInfo) = ⟨none, mo, pa, na, _, _, _, cd⟩
      simp only [iovecChunks, List.map_cons, claimWriteChunks]
    · show total + (pl.2 : Int) + ((rest.map Prod.snd).sum : Int) =
        total + (((pl.2 :: rest.map Prod.snd).sum : Nat) : Int)
      simp only [List.sum_cons]
      push_cast
      ring

/-- The four little-endian bytes of the u32 `T`. -/
def totalLeBytes (T : Int) : List Nat :=
  [leByte T 0, leByte T 1, leByte T 2, leByte T 3]

/-- Memory after a successful `_set_u32` of `T` at byte offset `o`. -/
def spliceU32 (mem : List Nat) (o : Nat) (T : Int) : List Nat :=
  mem.take o ++ totalLeBytes T ++ mem.drop (o + 4)

theorem wasiSetU32_ok_splice (mem : List Nat) (off v : Int) (h0 : 0 ≤ off)
    (h4 : off.toNat + 4 ≤ mem.length) (hv : 0 ≤ v) (hv2 : v < 2 ^ 32) :
    wasiSetU32 mem off v = .ok () (spliceU32 mem off.toNat v) :=
  wasiSetU32_ok mem off v h0 h4 hv hv2

/-- Claim C9: for every `fd_write` call on a known fd whose guest
memory encodes the in-bounds iovec list `pairs` and whose count
pointer is writable: on a StdOutput fd every iovec's bytes are
appended, in order, to the shared log buffer; on a RegularFile fd the
final data, size and position are exactly the claim's per-chunk fold
(write at the cursor, grow to `max(2 * capacity, position + length)`
when exceeding capacity, advance the cursor, set
`size = max(size, position + written)`); in both cases the call
returns 0 and the total number of bytes written is stored at
`countPtr`, as witnessed by reading it back. -/
theorem c9_fd_write_matches_claim
    (st : WasiState) (fd iovs iovs_len nwritten : Int)
    (pairs : List (Nat × Nat)) (info : FdInfo)
    (hfd : alookup st.fds fd = some info)
    (hlen : iovs_len.toNat = pairs.length)
    (henc : EncodesIovecsFrom st.memory iovs 0 pairs)
    (hbnd : IovecsBounded st.memory.length pairs)
    (hnw0 : 0 ≤ nwritten) (hnw4 : nwritten.toNat + 4 ≤ st.memory.length)
    (htot : (pairs.map Prod.snd).sum < 2 ^ 32) :
    (info.typ = some "output" →
      wasi_fd_write st fd iovs iovs_len nwritten =
        .ok 0 { st with
          fds := aset st.fds fd info
          output_buffer :=
            st.output_buffer ++ (iovecChunks st.memory pairs).flatten
          memory := spliceU32 st.memory nwritten.toNat
            (((pairs.map Prod.snd).sum : Nat) : Int) } ∧
      wasiGetU32 (spliceU32 st.memory nwritten.toNat
          (((pairs.map Prod.snd).sum : Nat) : Int)) nwritten =
        (((pairs.map Prod.snd).sum : Nat) : Int)) ∧
    (∀ (mo pa na : Option String) (cd : Bool) (d : List Nat) (p s : Nat),
      info = ⟨none, mo, pa, na, some (p : Int), some (s : Int), some d, cd⟩ →
      wasi_fd_write st fd iovs iovs_len nwritten =
        .ok 0 { st with
          fds := aset st.fds fd ⟨none, mo, pa, na,
            some (((claimWriteChunks d s p (iovecChunks st.memory pairs)).2.2 : Nat) : Int),
            some (((claimWriteChunks d s p (iovecChunks st.memory pairs)).2.1 : Nat) : Int),
            some ((claimWriteChunks d s p (iovecChunks st.memory pairs)).1), cd⟩
          memory := spliceU32 st.memory nwritten.toNat
            (((pairs.map Prod.snd).sum : Nat) : Int) } ∧
      wasiGetU32 (spliceU32 st.memory nwritten.toNat
          (((pairs.map Prod.snd).sum : Nat) : Int)) nwritten =
        (((pairs.map Prod.snd).sum : Nat) : Int)) := by
  have hsum0 : (0 : Int) ≤ (((pairs.map Prod.snd).sum : Nat) : Int) := by
    positivity
  have hsum32 : (((pairs.map Prod.snd).sum : Nat) : Int) < 2 ^ 32 := by
    exact_mod_cast htot
  have hget : wasiGetU32 (spliceU32 st.memory nwritten.toNat
      (((pairs.map Prod.snd).sum : Nat) : Int)) nwritten =
      (((pairs.map Prod.snd).sum : Nat) : Int) := by
    rw [show nwritten = ((nwritten.toNat : Nat) : Int) by omega]
    rw [show ((((nwritten.toNat : Nat) : Int)).toNat : Nat) = nwritten.toNat by omega]
    unfold spliceU32
    rw [wasiGetU32_splice st.memory
      (totalLeBytes (((pairs.map Prod.snd).sum : Nat) : Int)) nwritten.toNat
      (by rfl) hnw4]
    rw [show natFromLeBytes (totalLeBytes (((pairs.map Prod.snd).sum : Nat) : Int)) =
        ((((pairs.map Prod.snd).sum : Nat) : Int)).toNat from
      natFromLeBytes_leBytes _ hsum0 hsum32]
    omega
  constructor
  · intro htyp
    refine ⟨?_, hget⟩
    simp only [wasi_fd_write, hfd]
    rw [hlen]
    rw [fdWriteLoop_output st.memory iovs pairs 0 info htyp st.output_buffer 0 henc]
    simp only [zero_add]
    rw [show ((pairs.map Prod.snd).sum : Int) =
      (((pairs.map Prod.snd).sum : Nat) : Int) from rfl]
    rw [wasiSetU32_ok_splice st.memory nwritten _ hnw0 hnw4 hsum0 hsum32]
  · intro mo pa na cd d p s hinfo
    subst hinfo
    refine ⟨?_, hget⟩
    simp only [wasi_fd_write, hfd]
    rw [hlen]
    rw [fdWriteLoop_regular st.memory iovs pairs 0 mo pa na cd st.output_buffer 0
      d p s henc hbnd]
    simp only [zero_add]
    rw [show ((pairs.map Prod.snd).sum : Int) =
      (((pairs.map Prod.snd).sum : Nat) : Int) from rfl]
    rw [wasiSetU32_ok_splice st.memory nwritten _ hnw0 hnw4 hsum0 hsum32]

/-- The regular-file descriptor used to witness claim C9: an empty
file at position 0, size 0. -/
def c9Info : FdInfo :=
  ⟨none, none, none, some "f", some 0, some 0, some [], false⟩

/-- The state used to witness claim C9: fd 5 is the regular file; the
20-byte arena holds one iovec `(ptr = 12, len = 2)` at offset 0 and
the payload bytes `[7, 8]` at offset 12; the count pointer is 8. -/
def c9St : WasiState :=
  { output_buffer := []
    fds := [(5, c9Info)]
    fs_interface := none
    memory := [12, 0, 0, 0, 2, 0, 0, 0, 0, 0, 0, 0, 7, 8, 0, 0, 0, 0, 0, 0] }

/-- Witness for claim C9 on the regular-file branch at concrete
inputs. -/
theorem c9_witness :
    alookup c9St.fds 5 = some c9Info ∧
    (wasi_fd_write c9St 5 0 1 8 =
      .ok 0 { c9St with
        fds := aset c9St.fds 5 ⟨none, none, none, some "f",
          some (((claimWriteChunks [] 0 0 (iovecChunks c9St.memory [(12, 2)])).2.2 : Nat) : Int),
          some (((claimWriteChunks [] 0 0 (iovecChunks c9St.memory [(12, 2)])).2.1 : Nat) : Int),
          some ((claimWriteChunks [] 0 0 (iovecChunks c9St.memory [(12, 2)])).1), false⟩
        memory := spliceU32 c9St.memory (8 : Int).toNat
          ((([(12, 2)].map Prod.snd).sum : Nat) : Int) } ∧
    wasiGetU32 (spliceU32 c9St.memory (8 : Int).toNat
        ((([(12, 2)].map Prod.snd).sum : Nat) : Int)) 8 =
      ((([(12, 2)].map Prod.snd).sum : Nat) : Int)) :=
  ⟨by decide,
    (c9_fd_write_matches_claim c9St 5 0 1 8 [(12, 2)] c9Info (by decide) (by decide)
        ⟨by decide, by decide, trivial⟩ ⟨by decide, trivial⟩ (by decide) (by decide)
        (by decide)).2
      none none (some "f") false [] 0 0 rfl⟩

end NotsoGlb
